import Mathlib

/-!
Shallow embedding of the fine-tuning core of embedding_studio:

* `SessionFeatures` (embedding_studio/embeddings/features/session_features.py):
  five optional 1-D tensors of per-example values, kept length-consistent,
  with accumulation, range filtering and positive-borrowing operations.
* `ExperimentsManager` (embedding_studio/worker/experiments/experiments_tracker.py):
  a session/run state machine over an external tracking store, with
  best-run selection and model-saving policy.
* `finetune_embedding_model` (embedding_studio/worker/finetune_embedding.py):
  the sweep orchestration control flow (exception handling and cleanup).

Tensors are modelled as `List ℚ` (1-D, exact arithmetic); Python exceptions
are modelled as an error type, returned through `Except` or paired with the
post-mutation state where the Python object stays observable after a raise.
-/

namespace EmbeddingStudio

/-- The Python exceptions the embedded code can raise. -/
inductive PyError
  | typeError
  | valueError
  | attributeError
deriving DecidableEq

/-! ## SessionFeatures: raw (possibly non-tensor) field level

`__init__` and the property setters accept arbitrary Python objects and then
run `_check_types` (TypeError on a present non-tensor) followed by
`_check_lengths` (ValueError unless all present tensors share a length).
A `PyVal` is either a 1-D tensor or some non-tensor object. -/

inductive PyVal
  | tensor (xs : List ℚ)
  | nonTensor
deriving DecidableEq

/-- The five optional fields of a `SessionFeatures` object, before type
validation (so a field may hold a non-tensor, as after a bad setter call). -/
structure RawFeatures where
  positive_ranks : Option PyVal
  negative_ranks : Option PyVal
  target : Option PyVal
  positive_confidences : Option PyVal
  negative_confidences : Option PyVal
deriving DecidableEq

/-- The five fields in the order the Python code checks them. -/
def RawFeatures.fieldsList (s : RawFeatures) : List (Option PyVal) :=
  [s.positive_ranks, s.negative_ranks, s.target,
   s.positive_confidences, s.negative_confidences]

/-- Is a single field slot of a valid type (absent, or a tensor)? -/
def okType : Option PyVal → Bool
  | some PyVal.nonTensor => false
  | _ => true

/-- `_check_types`: TypeError as soon as a present field is not a tensor. -/
def RawFeatures.check_types (s : RawFeatures) : Option PyError :=
  if s.fieldsList.all okType then none else some PyError.typeError

/-- All members of the list are equal (a set built from the list has at most
one element, mirroring the `len(length_set) > 1` test). -/
def allEqual : List ℕ → Bool
  | [] => true
  | x :: xs => xs.all (· == x)

/-- The lengths of the present tensor fields, in field order. -/
def RawFeatures.presentLengths (s : RawFeatures) : List ℕ :=
  s.fieldsList.filterMap fun o =>
    match o with
    | some (PyVal.tensor xs) => some xs.length
    | _ => none

/-- `_check_lengths`: ValueError unless every present field has one common
length.  (In the source this runs after `_check_types`, so every present
field is a tensor by then; non-tensors do not occur on the paths modelled.) -/
def RawFeatures.check_lengths (s : RawFeatures) : Option PyError :=
  if allEqual s.presentLengths then none else some PyError.valueError

/-- `_check_types()` followed by `_check_lengths()`, first error wins. -/
def RawFeatures.validate (s : RawFeatures) : Option PyError :=
  match s.check_types with
  | some e => some e
  | none => s.check_lengths

/-- `SessionFeatures.__init__`: store the five fields, then validate.  When
validation raises, the half-built object is not bound by the caller, so the
constructor is modelled as `Except`. -/
def init_features (a b c d e : Option PyVal) : Except PyError RawFeatures :=
  let s : RawFeatures := ⟨a, b, c, d, e⟩
  match s.validate with
  | some err => Except.error err
  | none => Except.ok s

/-- A property setter: the field is assigned first, the checks run second.
The returned state is the object as Python leaves it, even when an error is
raised -- a caller that catches the exception still holds that object. -/
def RawFeatures.set_positive_ranks (s : RawFeatures) (v : Option PyVal) :
    RawFeatures × Option PyError :=
  let s2 := { s with positive_ranks := v }
  (s2, s2.validate)

/-- The `negative_ranks` setter: assign, then re-validate. -/
def RawFeatures.set_negative_ranks (s : RawFeatures) (v : Option PyVal) :
    RawFeatures × Option PyError :=
  let s2 := { s with negative_ranks := v }
  (s2, s2.validate)

/-- The `target` setter: assign, then re-validate. -/
def RawFeatures.set_target (s : RawFeatures) (v : Option PyVal) :
    RawFeatures × Option PyError :=
  let s2 := { s with target := v }
  (s2, s2.validate)

/-- The `positive_confidences` setter: assign, then re-validate. -/
def RawFeatures.set_positive_confidences (s : RawFeatures) (v : Option PyVal) :
    RawFeatures × Option PyError :=
  let s2 := { s with positive_confidences := v }
  (s2, s2.validate)

/-- The `negative_confidences` setter: assign, then re-validate. -/
def RawFeatures.set_negative_confidences (s : RawFeatures) (v : Option PyVal) :
    RawFeatures × Option PyError :=
  let s2 := { s with negative_confidences := v }
  (s2, s2.validate)

/-- The intended invariant, stated independently of the checking code: no
field holds a non-tensor, and any two present tensor fields have the same
length. -/
def RawInvariant (s : RawFeatures) : Prop :=
  (∀ o ∈ s.fieldsList, o ≠ some PyVal.nonTensor) ∧
  (∀ o1 ∈ s.fieldsList, ∀ o2 ∈ s.fieldsList, ∀ xs ys,
    o1 = some (PyVal.tensor xs) → o2 = some (PyVal.tensor ys) →
    xs.length = ys.length)

/-! ## SessionFeatures: tensor level

The accumulation / filtering / borrowing operations act on states whose
present fields are tensors; they are embedded over `Option (List ℚ)`. -/

/-- A `SessionFeatures` object all of whose present fields are tensors. -/
structure SessionFeatures where
  positive_ranks : Option (List ℚ)
  negative_ranks : Option (List ℚ)
  target : Option (List ℚ)
  positive_confidences : Option (List ℚ)
  negative_confidences : Option (List ℚ)
deriving DecidableEq

/-- Lengths of the present fields, in field order. -/
def SessionFeatures.presentLengths (s : SessionFeatures) : List ℕ :=
  [s.positive_ranks, s.negative_ranks, s.target,
   s.positive_confidences, s.negative_confidences].filterMap
    fun o => o.map List.length

/-- `_check_lengths` at the tensor level. -/
def SessionFeatures.check_lengths (s : SessionFeatures) : Option PyError :=
  if allEqual s.presentLengths then none else some PyError.valueError

/-- `SessionFeatures._accumulate`: concatenate when both present; adopt the
other value when only it is present; otherwise the Python function falls
through and returns `None` -- in particular a field present only in `self`
comes back absent. -/
def accumulate : Option (List ℚ) → Option (List ℚ) → Option (List ℚ)
  | some xs, some ys => some (xs ++ ys)
  | _, some ys => some ys
  | _, none => none

/-- `SessionFeatures.__iadd__`: accumulate all five fields, then re-run the
checks (`_check_types` cannot fail here: every field is a tensor or absent). -/
def SessionFeatures.iadd (s o : SessionFeatures) : Except PyError SessionFeatures :=
  let s2 : SessionFeatures :=
    ⟨accumulate s.positive_ranks o.positive_ranks,
     accumulate s.negative_ranks o.negative_ranks,
     accumulate s.target o.target,
     accumulate s.positive_confidences o.positive_confidences,
     accumulate s.negative_confidences o.negative_confidences⟩
  match s2.check_lengths with
  | some err => Except.error err
  | none => Except.ok s2

/-- Boolean-mask indexing of a tensor (`t[mask]`): keep the entries at the
true positions. -/
def applyMask : List Bool → List ℚ → List ℚ
  | true :: ms, x :: xs => x :: applyMask ms xs
  | false :: ms, _ :: xs => applyMask ms xs
  | _, _ => []

/-- Boolean-mask indexing of an optional field: Python raises TypeError when
the field is `None` (`None[mask]` is not subscriptable). -/
def maskIndex (mask : List Bool) : Option (List ℚ) → Except PyError (List ℚ)
  | none => Except.error PyError.typeError
  | some xs => Except.ok (applyMask mask xs)

/-- The per-example keep-condition of `clamp_diff_in`:
strict `min < |pos - neg|` and strict `|pos - neg| < max`. -/
def keepPair (mn mx : ℚ) (p : ℚ × ℚ) : Bool :=
  decide (mn < |p.1 - p.2|) && decide (|p.1 - p.2| < mx)

/-- `SessionFeatures.clamp_diff_in(min, max)`: when both rank fields are
present, build the boolean mask `min < |pos - neg| < max` and index all five
fields with it (TypeError on an absent field), then re-check lengths;
when either rank field is absent, the method is a no-op. -/
def SessionFeatures.clamp_diff_in (s : SessionFeatures) (mn mx : ℚ) :
    Except PyError SessionFeatures :=
  match s.positive_ranks, s.negative_ranks with
  | some pos, some neg => do
    let mask := (pos.zip neg).map (keepPair mn mx)
    let pos2 := applyMask mask pos
    let neg2 := applyMask mask neg
    let tgt2 ← maskIndex mask s.target
    let pc2 ← maskIndex mask s.positive_confidences
    let nc2 ← maskIndex mask s.negative_confidences
    let s2 : SessionFeatures := ⟨some pos2, some neg2, some tgt2, some pc2, some nc2⟩
    match s2.check_lengths with
    | some err => Except.error err
    | none => Except.ok s2
  | _, _ => Except.ok s

/-- Truncation of an optional field (`field[:n]`): Python raises TypeError
when the field is `None`. -/
def truncIndex (n : ℕ) : Option (List ℚ) → Except PyError (List ℚ)
  | none => Except.error PyError.typeError
  | some xs => Except.ok (xs.take n)

/-- `SessionFeatures.use_positive_from(other)`: validate `other`; read the
two shapes (AttributeError on an absent rank field); truncate the longer
side -- but the borrowed ranks are stored untruncated into
`positive_confidences` -- and finally re-check lengths. -/
def SessionFeatures.use_positive_from (s o : SessionFeatures) :
    Except PyError SessionFeatures := do
  match o.check_lengths with
  | some err => Except.error err
  | none => do
    match s.negative_ranks, o.positive_ranks with
    | some sneg, some opos =>
      if sneg.length < opos.length then
        let pr := opos.take sneg.length
        let s2 : SessionFeatures :=
          { s with positive_confidences := some opos, positive_ranks := some pr }
        match s2.check_lengths with
        | some err => Except.error err
        | none => Except.ok s2
      else if opos.length < sneg.length then do
        let tgt2 ← truncIndex opos.length s.target
        let nc2 ← truncIndex opos.length s.negative_confidences
        let s2 : SessionFeatures :=
          { s with negative_ranks := some (sneg.take opos.length),
                   target := some tgt2,
                   negative_confidences := some nc2,
                   positive_confidences := some opos,
                   positive_ranks := some opos }
        match s2.check_lengths with
        | some err => Except.error err
        | none => Except.ok s2
      else
        let s2 : SessionFeatures :=
          { s with positive_confidences := some opos, positive_ranks := some opos }
        match s2.check_lengths with
        | some err => Except.error err
        | none => Except.ok s2
    | _, _ => Except.error PyError.attributeError

/-- The per-field contract `_accumulate` actually satisfies: a field absent
in `other` comes back absent (even when `self` has it), and a field present
in `other` yields the concatenation of the (possibly empty) `self` values
with the `other` values. -/
def accSpec (a b c : Option (List ℚ)) : Prop :=
  (b = none → c = none) ∧ (∀ ys, b = some ys → c = some (a.getD [] ++ ys))

/-! ## ExperimentsManager

The manager wraps an external tracking service.  A `RunRecord` models one row
of the search result for a session: its run identifier, its main-metric value
(`metrics.<main_metric>`), whether the `model_uploaded` parameter equals 1,
and its status string.  The query result order of the backing store is the
list order. -/

/-- One run row as returned by the tracking-store search for a session. -/
structure RunRecord where
  run_id : String
  metric : ℚ
  model_uploaded : Bool
  status : String
deriving DecidableEq

/-- The filter applied by `_get_best_quality` and `get_top_params`: the
`model_uploaded = 1` parameter filter composed with `status == FINISHED`. -/
def qualifies (r : RunRecord) : Bool :=
  r.model_uploaded && r.status == "FINISHED"

/-- Fold the main-metric column to its extremal value: `.min()` of the
column when the metric is a loss, `.max()` otherwise. -/
def extremalMetric (is_loss : Bool) (m : ℚ) (ms : List ℚ) : ℚ :=
  ms.foldl (fun a b => if is_loss then min a b else max a b) m

/-- `ExperimentsManager._get_best_quality`: keep the qualifying runs; with
none of them return `(None, 0.0)`; otherwise take the extremal metric value
over the qualifying rows and return the first row attaining it (the source
indexes row 0 of the equal-to-extremum slice; the final fallback arm is
unreachable since the extremum is attained). -/
def best_quality (is_loss : Bool) (runs : List RunRecord) :
    Option String × ℚ :=
  match runs.filter qualifies with
  | [] => (none, 0)
  | q :: qs =>
    let value := extremalMetric is_loss q.metric (qs.map RunRecord.metric)
    match (q :: qs).find? (fun r => r.metric == value) with
    | some b => (some b.run_id, b.metric)
    | none => (none, 0)

/-- The current-session slot of the manager: `None` at start, the reserved
initial-experiment name (a string in the source), or a fine-tuning session
descriptor.  The source compares the slot with the initial name using `==`,
which is true exactly for the string itself. -/
inductive SessionTag
  | initial
  | named (s : String)
deriving DecidableEq

/-- The local state of an `ExperimentsManager`: the cached session and run
identity plus the metric accumulators (each modelled by its buffered
values). -/
structure MgrState where
  is_loss : Bool
  tuning_session : Option SessionTag
  tuning_session_id : Option String
  run_active : Bool
  run_params : Option String
  run_id : Option String
  accumulators : List (List ℚ)
deriving DecidableEq

/-- Modelled from the spec: the reserved initial experiment name.  In the
source it is built from a tracking name constant defined in
`finetuning_session.py`, a module not present here; its exact text is
irrelevant to the claims. -/
def INITIAL_EXPERIMENT_NAME : String := "embedding studio / initial"

/-- The experiment names known to the external tracking store. -/
structure Store where
  experiments : List String
deriving DecidableEq

/-- Modelled from the spec: `get_experiment_id_by_name` resolves an
experiment name to its identifier (`utils.py` is not present here);
identifiers are modelled by the names themselves. -/
def Store.get_experiment_id_by_name (st : Store) (name : String) :
    Option String :=
  if name ∈ st.experiments then some name else none

/-- `mlflow.create_experiment` / `mlflow.set_experiment(name)`: register the
experiment and return its identifier. -/
def Store.create_experiment (st : Store) (name : String) : String × Store :=
  (name, ⟨name :: st.experiments⟩)

/-- `ExperimentsManager.finish_session`: point the manager back at the
reserved initial experiment, creating it in the store when absent.  The run
slots are not touched. -/
def finish_session (m : MgrState) (st : Store) : MgrState × Store :=
  match st.get_experiment_id_by_name INITIAL_EXPERIMENT_NAME with
  | some sid =>
    ({ m with tuning_session := some SessionTag.initial,
              tuning_session_id := some sid }, st)
  | none =>
    let (sid, st2) := st.create_experiment INITIAL_EXPERIMENT_NAME
    ({ m with tuning_session := some SessionTag.initial,
              tuning_session_id := some sid }, st2)

/-- `ExperimentsManager.finish_run`: clear every accumulator, end the active
run in the service, and reset the three run slots to absent. -/
def finish_run (m : MgrState) : MgrState :=
  { m with accumulators := m.accumulators.map (fun _ => []),
           run_active := false,
           run_params := none,
           run_id := none }

/-- `ExperimentsManager.set_session(session)`: when the current session slot
equals the reserved initial name, finish it first; then store the new
session descriptor and resolve-or-create its experiment.  No run slot and no
accumulator is touched. -/
def set_session (m : MgrState) (st : Store) (session : String) :
    MgrState × Store :=
  let (m1, st1) :=
    if m.tuning_session = some SessionTag.initial then finish_session m st
    else (m, st)
  let (sid, st2) :=
    match st1.get_experiment_id_by_name session with
    | some i => (i, st1)
    | none => st1.create_experiment session
  ({ m1 with tuning_session := some (SessionTag.named session),
             tuning_session_id := some sid }, st2)

/-- `ExperimentsManager.set_run(params)`: raise ValueError on the reserved
initial session, leaving the state untouched; otherwise finish a prior
active run and activate a run named after the params identity key. -/
def set_run (m : MgrState) (st : Store) (params_id : String) :
    (MgrState × Store) × Option PyError :=
  if m.tuning_session = some SessionTag.initial then
    ((m, st), some PyError.valueError)
  else
    let m1 := if m.run_active then finish_run m else m
    let sid := m1.tuning_session_id.getD ""
    let rid := sid ++ " / " ++ params_id
    (({ m1 with run_active := true,
                run_params := some params_id,
                run_id := some rid }, st), none)

/-- `ExperimentsManager.get_quality`: ValueError on the reserved initial
session or with no active run; otherwise read the main-metric value of the
current run from the session search result. -/
def get_quality (m : MgrState) (runs : List RunRecord) : Except PyError ℚ :=
  if m.tuning_session = some SessionTag.initial then
    Except.error PyError.valueError
  else if m.run_id = none then
    Except.error PyError.valueError
  else
    match runs.find? (fun r => some r.run_id == m.run_id) with
    | some r => Except.ok r.metric
    | none => Except.error PyError.typeError

/-- `ExperimentsManager.get_best_quality`: ValueError on the reserved
initial session, else `_get_best_quality` on the current session. -/
def get_best_quality (m : MgrState) (runs : List RunRecord) :
    Except PyError (Option String × ℚ) :=
  if m.tuning_session = some SessionTag.initial then
    Except.error PyError.valueError
  else
    Except.ok (best_quality m.is_loss runs)

/-- `ExperimentsManager.save_model(model, best_only)`: guard against the
initial session and a missing run; with `best_only = False` always upload;
otherwise upload exactly when no best run exists yet or the current quality
is at least as good (for a loss: current ≤ best; else current ≥ best).  The
returned Bool says whether the model was persisted and marked uploaded. -/
def save_model (m : MgrState) (runs : List RunRecord) (best_only : Bool) :
    Except PyError Bool :=
  if m.tuning_session = some SessionTag.initial then
    Except.error PyError.valueError
  else if m.run_id = none then
    Except.error PyError.valueError
  else if !best_only then
    Except.ok true
  else do
    let current_quality ← get_quality m runs
    let (best_run_id, best_value) := best_quality m.is_loss runs
    if best_run_id = none ∨
        (if m.is_loss then current_quality ≤ best_value
         else best_value ≤ current_quality) then
      Except.ok true
    else
      Except.ok false

/-! ## Sweep orchestration (`finetune_embedding_model`)

The sweep body sits inside a single `try`: resolving and saving the initial
model, then running all trials (either the search loop or the warm-start
loop, both strictly sequential).  The `except` clause swallows any
exception; afterwards the temporary model file is removed when present, and
`finish_session` always runs. -/

/-- What one hyperparameter trial does when executed. -/
inductive TrialOutcome
  | ok (q : ℚ)
  | exn
deriving DecidableEq

/-- Run the trials in order: the count of trials that started, and whether
an exception escaped the loop.  A raising trial stops the loop at once. -/
def run_trials : List TrialOutcome → ℕ × Bool
  | [] => (0, false)
  | TrialOutcome.ok _ :: ts =>
    let (n, e) := run_trials ts
    (n + 1, e)
  | TrialOutcome.exn :: _ => (1, true)

/-- The externally observable outcome of one sweep. -/
structure SweepTrace where
  trialsStarted : ℕ
  fileExistsAfter : Bool
  sessionFinished : Bool
deriving DecidableEq

/-- `finetune_embedding_model`: the whole sweep body is wrapped in one
try/except that suppresses any exception; then the temporary initial-model
file is removed when present, and the tracker session is finished.
`initial_model_ok` says whether resolving and saving the initial model
(before the first trial) succeeded. -/
def finetune_embedding_model (initial_model_ok : Bool)
    (trials : List TrialOutcome) : SweepTrace :=
  let started := if initial_model_ok then (run_trials trials).1 else 0
  { trialsStarted := started
  , fileExistsAfter := false
  , sessionFinished := true }

/-! ## Helper lemmas -/

theorem allEqual_spec {l : List ℕ} (h : allEqual l = true) :
    ∀ x ∈ l, ∀ y ∈ l, x = y := by
  cases l with
  | nil => simp
  | cons z zs =>
    have hz : ∀ w ∈ z :: zs, w = z := by
      intro w hw
      rcases List.mem_cons.mp hw with rfl | hw1
      · rfl
      · have hall : zs.all (· == z) = true := by simpa [allEqual] using h
        exact beq_iff_eq.mp (List.all_eq_true.mp hall w hw1)
    intro x hx y hy
    rw [hz x hx, hz y hy]

theorem find_decomp {α : Type} (p : α → Bool) (l : List α) (b : α)
    (h : l.find? p = some b) :
    p b = true ∧ ∃ l1 l2, l = l1 ++ b :: l2 ∧ ∀ x ∈ l1, p x = false := by
  induction l with
  | nil => simp [List.find?] at h
  | cons a as ih =>
    by_cases ha : p a = true
    · rw [List.find?_cons_of_pos _ ha] at h
      obtain rfl : a = b := by injection h
      exact ⟨ha, [], as, rfl, by simp⟩
    · rw [List.find?_cons_of_neg _ ha] at h
      obtain ⟨hpb, l1, l2, rfl, hl1⟩ := ih h
      refine ⟨hpb, a :: l1, l2, rfl, ?_⟩
      intro x hx
      rcases List.mem_cons.mp hx with rfl | hx1
      · exact Bool.eq_false_iff.mpr ha
      · exact hl1 x hx1

theorem extremalMetric_mem (il : Bool) (m : ℚ) (ms : List ℚ) :
    extremalMetric il m ms ∈ m :: ms := by
  induction ms generalizing m with
  | nil => simp [extremalMetric]
  | cons a as ih =>
    have he : extremalMetric il m (a :: as)
        = extremalMetric il (if il then min m a else max m a) as := by
      simp [extremalMetric]
    have h := ih (if il then min m a else max m a)
    rw [he]
    rcases List.mem_cons.mp h with h1 | h1
    · rw [h1]
      cases il with
      | false =>
        rcases max_choice m a with hc | hc <;> simp [hc]
      | true =>
        rcases min_choice m a with hc | hc <;> simp [hc]
    · exact List.mem_cons_of_mem _ (List.mem_cons_of_mem _ h1)

theorem extremalMetric_le (m : ℚ) (ms : List ℚ) :
    ∀ x ∈ m :: ms, extremalMetric true m ms ≤ x := by
  induction ms generalizing m with
  | nil =>
    intro x hx
    rcases List.mem_cons.mp hx with rfl | hx1
    · simp [extremalMetric]
    · simp at hx1
  | cons a as ih =>
    intro x hx
    have he : extremalMetric true m (a :: as)
        = extremalMetric true (min m a) as := by
      simp [extremalMetric]
    rw [he]
    have hinit : extremalMetric true (min m a) as ≤ min m a :=
      ih (min m a) (min m a) (List.mem_cons_self _ _)
    rcases List.mem_cons.mp hx with rfl | hx1
    · exact le_trans hinit (min_le_left _ _)
    rcases List.mem_cons.mp hx1 with rfl | hx2
    · exact le_trans hinit (min_le_right _ _)
    · exact ih (min m a) x (List.mem_cons_of_mem _ hx2)

theorem le_extremalMetric (m : ℚ) (ms : List ℚ) :
    ∀ x ∈ m :: ms, x ≤ extremalMetric false m ms := by
  induction ms generalizing m with
  | nil =>
    intro x hx
    rcases List.mem_cons.mp hx with rfl | hx1
    · simp [extremalMetric]
    · simp at hx1
  | cons a as ih =>
    intro x hx
    have he : extremalMetric false m (a :: as)
        = extremalMetric false (max m a) as := by
      simp [extremalMetric]
    rw [he]
    have hinit : max m a ≤ extremalMetric false (max m a) as :=
      ih (max m a) (max m a) (List.mem_cons_self _ _)
    rcases List.mem_cons.mp hx with rfl | hx1
    · exact le_trans (le_max_left _ _) hinit
    rcases List.mem_cons.mp hx1 with rfl | hx2
    · exact le_trans (le_max_right _ _) hinit
    · exact ih (max m a) x (List.mem_cons_of_mem _ hx2)

/-! ## C1: best-run selection -/

/-- C1: `get_best_quality` / `_get_best_quality` considers only the runs
with the model-uploaded marker and FINISHED status; with no qualifying run
it returns an absent identifier and quality 0.0; otherwise it returns a
qualifying run whose metric is minimal when `is_loss` and maximal otherwise,
and that run is the first such match in the query result order (the
function is deterministic in the backing list). -/
theorem best_quality_selects_extremal_first (il : Bool) (runs : List RunRecord) :
    (runs.filter qualifies = [] → best_quality il runs = (none, 0)) ∧
    (∀ q qs, runs.filter qualifies = q :: qs →
      ∃ b l1 l2,
        best_quality il runs = (some b.run_id, b.metric) ∧
        q :: qs = l1 ++ b :: l2 ∧
        (∀ r ∈ q :: qs, if il then b.metric ≤ r.metric else r.metric ≤ b.metric) ∧
        (∀ r ∈ l1, r.metric ≠ b.metric)) := by
  constructor
  · intro h
    simp [best_quality, h]
  · intro q qs h
    have hmem : ∃ r ∈ q :: qs,
        r.metric = extremalMetric il q.metric (qs.map RunRecord.metric) := by
      have h1 := extremalMetric_mem il q.metric (qs.map RunRecord.metric)
      rcases List.mem_cons.mp h1 with h2 | h2
      · exact ⟨q, List.mem_cons_self _ _, h2.symm⟩
      · obtain ⟨r, hr, hrv⟩ := List.mem_map.mp h2
        exact ⟨r, List.mem_cons_of_mem _ hr, hrv⟩
    obtain ⟨b, hb⟩ : ∃ b, (q :: qs).find?
        (fun r => r.metric == extremalMetric il q.metric (qs.map RunRecord.metric))
          = some b := by
      cases hf : (q :: qs).find?
          (fun r => r.metric == extremalMetric il q.metric (qs.map RunRecord.metric)) with
      | none =>
        obtain ⟨r, hr, hrv⟩ := hmem
        have := List.find?_eq_none.mp hf r hr
        simp [hrv] at this
      | some b => exact ⟨b, rfl⟩
    obtain ⟨hpb, l1, l2, hsplit, hl1⟩ := find_decomp _ _ _ hb
    have hbv : b.metric = extremalMetric il q.metric (qs.map RunRecord.metric) := by
      simpa using hpb
    refine ⟨b, l1, l2, ?_, hsplit, ?_, ?_⟩
    · simp only [best_quality, h, hb]
    · intro r hr
      have hrmem : r.metric ∈ q.metric :: qs.map RunRecord.metric := by
        rcases List.mem_cons.mp hr with rfl | hr1
        · exact List.mem_cons_self _ _
        · exact List.mem_cons_of_mem _ (List.mem_map.mpr ⟨r, hr1, rfl⟩)
      cases il with
      | true =>
        simpa [hbv] using extremalMetric_le q.metric (qs.map RunRecord.metric) r.metric hrmem
      | false =>
        simpa [hbv] using le_extremalMetric q.metric (qs.map RunRecord.metric) r.metric hrmem
    · intro r hr
      have := hl1 r hr
      simp [hbv] at this ⊢
      exact this

/-- Witness for C1 on the synthetic metric set [0.2, 0.5, 0.1, 0.5] of the
spec (scaled by 10 to [2, 5, 1, 5]): for a loss the 0.1-scaled run is selected, as the first extremal match. -/
theorem best_quality_selects_extremal_first_witness :
    ∃ b l1 l2,
      best_quality true
        [⟨"r1", 2, true, "FINISHED"⟩, ⟨"r2", 5, true, "FINISHED"⟩,
         ⟨"r3", 1, true, "FINISHED"⟩, ⟨"r4", 5, true, "FINISHED"⟩]
        = (some b.run_id, b.metric) ∧
      ([⟨"r1", 2, true, "FINISHED"⟩, ⟨"r2", 5, true, "FINISHED"⟩,
        ⟨"r3", 1, true, "FINISHED"⟩, ⟨"r4", 5, true, "FINISHED"⟩]
          : List RunRecord) = l1 ++ b :: l2 ∧
      (∀ r ∈ ([⟨"r1", 2, true, "FINISHED"⟩, ⟨"r2", 5, true, "FINISHED"⟩,
               ⟨"r3", 1, true, "FINISHED"⟩, ⟨"r4", 5, true, "FINISHED"⟩]
                : List RunRecord),
        if true then b.metric ≤ r.metric else r.metric ≤ b.metric) ∧
      (∀ r ∈ l1, r.metric ≠ b.metric) :=
  (best_quality_selects_extremal_first true
    [⟨"r1", 2, true, "FINISHED"⟩, ⟨"r2", 5, true, "FINISHED"⟩,
     ⟨"r3", 1, true, "FINISHED"⟩, ⟨"r4", 5, true, "FINISHED"⟩]).2
    ⟨"r1", 2, true, "FINISHED"⟩
    [⟨"r2", 5, true, "FINISHED"⟩, ⟨"r3", 1, true, "FINISHED"⟩,
     ⟨"r4", 5, true, "FINISHED"⟩]
    (by decide)

/-! ## C2: save_model policy -/

/-- C2: on an active run, `save_model` with `best_only = False` always
uploads; with `best_only = True` it uploads exactly when no qualifying best
run exists yet or the current quality is at least as good as the best
(current ≤ best for a loss, current ≥ best otherwise); hence the first run
of a session uploads, a strictly worse run does not, and an equal-quality
run does (ties overwrite). -/
theorem save_model_policy (m : MgrState) (runs : List RunRecord)
    (sname : String) (rid : String) (cq : ℚ)
    (hs : m.tuning_session = some (SessionTag.named sname))
    (hr : m.run_id = some rid)
    (hq : get_quality m runs = Except.ok cq) :
    save_model m runs false = Except.ok true ∧
    (save_model m runs true = Except.ok true ↔
      ((best_quality m.is_loss runs).1 = none ∨
        (if m.is_loss then cq ≤ (best_quality m.is_loss runs).2
         else (best_quality m.is_loss runs).2 ≤ cq))) ∧
    (runs.filter qualifies = [] → save_model m runs true = Except.ok true) ∧
    ((best_quality m.is_loss runs).1 ≠ none ∧ cq = (best_quality m.is_loss runs).2 →
      save_model m runs true = Except.ok true) ∧
    ((best_quality m.is_loss runs).1 ≠ none ∧
      (if m.is_loss then (best_quality m.is_loss runs).2 < cq
       else cq < (best_quality m.is_loss runs).2) →
      save_model m runs true = Except.ok false) := by
  have hnotinit : ¬ m.tuning_session = some SessionTag.initial := by
    rw [hs]; simp
  have hnotnone : ¬ m.run_id = none := by
    rw [hr]; simp
  have hbase : save_model m runs true =
      (if (best_quality m.is_loss runs).1 = none ∨
          (if m.is_loss then cq ≤ (best_quality m.is_loss runs).2
           else (best_quality m.is_loss runs).2 ≤ cq)
        then Except.ok true else Except.ok false) := by
    simp only [save_model, hnotinit, hnotnone, if_false, Bool.not_true,
      Bool.false_eq_true, hq]
    cases hbq : best_quality m.is_loss runs with
    | mk bid bv =>
      simp only [hbq]
      rfl
  refine ⟨?_, ?_, ?_, ?_, ?_⟩
  · simp [save_model, hnotinit, hnotnone]
  · rw [hbase]
    by_cases hc : (best_quality m.is_loss runs).1 = none ∨
        (if m.is_loss then cq ≤ (best_quality m.is_loss runs).2
         else (best_quality m.is_loss runs).2 ≤ cq)
    · simp [hc]
    · simp [hc]
  · intro hempty
    rw [hbase]
    have h1 : (best_quality m.is_loss runs).1 = none := by
      simp [best_quality, hempty]
    rw [if_pos (Or.inl h1)]
  · intro ⟨_, heq⟩
    rw [hbase]
    have h1 : (if m.is_loss then cq ≤ (best_quality m.is_loss runs).2
        else (best_quality m.is_loss runs).2 ≤ cq) := by
      rw [heq]
      split <;> exact le_refl _
    rw [if_pos (Or.inr h1)]
  · intro ⟨hne, hworse⟩
    rw [hbase]
    have hc : ¬ ((best_quality m.is_loss runs).1 = none ∨
        (if m.is_loss then cq ≤ (best_quality m.is_loss runs).2
         else (best_quality m.is_loss runs).2 ≤ cq)) := by
      push_neg
      refine ⟨hne, ?_⟩
      revert hworse
      split <;> intro hworse <;> exact not_le.mpr hworse
    rw [if_neg hc]

/-- Witness for C2: one finished uploaded run with metric 5; a current run
with equal quality 5 (non-loss) uploads again (tie overwrites). -/
theorem save_model_policy_witness :
    save_model
      { is_loss := false, tuning_session := some (SessionTag.named "s1"),
        tuning_session_id := some "s1", run_active := true,
        run_params := some "p2", run_id := some "r2",
        accumulators := [] }
      [⟨"r1", 5, true, "FINISHED"⟩, ⟨"r2", 5, false, "RUNNING"⟩]
      false = Except.ok true ∧
    (save_model
      { is_loss := false, tuning_session := some (SessionTag.named "s1"),
        tuning_session_id := some "s1", run_active := true,
        run_params := some "p2", run_id := some "r2",
        accumulators := [] }
      [⟨"r1", 5, true, "FINISHED"⟩, ⟨"r2", 5, false, "RUNNING"⟩]
      true = Except.ok true ↔
      ((best_quality false [⟨"r1", 5, true, "FINISHED"⟩, ⟨"r2", 5, false, "RUNNING"⟩]).1 = none ∨
        (if false then (5 : ℚ) ≤ (best_quality false [⟨"r1", 5, true, "FINISHED"⟩, ⟨"r2", 5, false, "RUNNING"⟩]).2
         else (best_quality false [⟨"r1", 5, true, "FINISHED"⟩, ⟨"r2", 5, false, "RUNNING"⟩]).2 ≤ 5))) := by
  have h := save_model_policy
    { is_loss := false, tuning_session := some (SessionTag.named "s1"),
      tuning_session_id := some "s1", run_active := true,
      run_params := some "p2", run_id := some "r2",
      accumulators := [] }
    [⟨"r1", 5, true, "FINISHED"⟩, ⟨"r2", 5, false, "RUNNING"⟩]
    "s1" "r2" 5 rfl rfl (by rfl)
  exact ⟨h.1, h.2.1⟩

/-! ## C7: set_session and the active run -/

/-- C7 counterexample: on a manager with an active run and a non-initial
session, `set_session` leaves the run identifier in place and the
accumulators uncleared -- the prior run is not finished, refuting the claim
that the run state is reset to absent before entering the new session. -/
theorem set_session_keeps_active_run :
    (set_session
      { is_loss := false, tuning_session := some (SessionTag.named "s1"),
        tuning_session_id := some "s1", run_active := true,
        run_params := some "p1", run_id := some "s1 / p1",
        accumulators := [[1]] }
      ⟨["s1"]⟩ "s2").1.run_id = some "s1 / p1" ∧
    (set_session
      { is_loss := false, tuning_session := some (SessionTag.named "s1"),
        tuning_session_id := some "s1", run_active := true,
        run_params := some "p1", run_id := some "s1 / p1",
        accumulators := [[1]] }
      ⟨["s1"]⟩ "s2").1.accumulators = [[1]] ∧
    some "s1 / p1" ≠ (none : Option String) := by
  refine ⟨by decide, by decide, by simp⟩

/-- C7 amended: `set_session` does not finish a prior active run -- run
identifier, params, active flag and accumulators are all preserved -- while
the session slot becomes the given session; the prior session is finished
(the initial experiment is ensured in the store) only when the current
session is the reserved initial one, and otherwise the store can change only
by the creation of the new session experiment. -/
theorem set_session_preserves_run (m : MgrState) (st : Store) (s : String) :
    ((set_session m st s).1.run_id = m.run_id) ∧
    ((set_session m st s).1.run_params = m.run_params) ∧
    ((set_session m st s).1.run_active = m.run_active) ∧
    ((set_session m st s).1.accumulators = m.accumulators) ∧
    ((set_session m st s).1.is_loss = m.is_loss) ∧
    ((set_session m st s).1.tuning_session = some (SessionTag.named s)) ∧
    (m.tuning_session = some SessionTag.initial →
      INITIAL_EXPERIMENT_NAME ∈ (set_session m st s).2.experiments) ∧
    (m.tuning_session ≠ some SessionTag.initial →
      (set_session m st s).2 = st ∨ (set_session m st s).2 = ⟨s :: st.experiments⟩) := by
  by_cases hinit : m.tuning_session = some SessionTag.initial
  · by_cases hmem : INITIAL_EXPERIMENT_NAME ∈ st.experiments
    · have hget : st.get_experiment_id_by_name INITIAL_EXPERIMENT_NAME =
          some INITIAL_EXPERIMENT_NAME := by
        simp [Store.get_experiment_id_by_name, hmem]
      by_cases hs2 : s ∈ st.experiments <;>
        simp [set_session, finish_session, hinit, hget, hmem,
          Store.get_experiment_id_by_name, Store.create_experiment, hs2]
    · have hget : st.get_experiment_id_by_name INITIAL_EXPERIMENT_NAME = none := by
        simp [Store.get_experiment_id_by_name, hmem]
      by_cases hs2 : s ∈ INITIAL_EXPERIMENT_NAME :: st.experiments <;>
        simp [set_session, finish_session, hinit, hget, hmem,
          Store.get_experiment_id_by_name, Store.create_experiment, hs2]
  · by_cases hs2 : s ∈ st.experiments <;>
      simp [set_session, hinit, Store.get_experiment_id_by_name,
        Store.create_experiment, hs2]

/-- Witness for C7 amended on a manager sitting on the initial session with
no run. -/
theorem set_session_preserves_run_witness :
    INITIAL_EXPERIMENT_NAME ∈
      (set_session
        { is_loss := false, tuning_session := some SessionTag.initial,
          tuning_session_id := some INITIAL_EXPERIMENT_NAME,
          run_active := false, run_params := none, run_id := none,
          accumulators := [] }
        ⟨[INITIAL_EXPERIMENT_NAME]⟩ "s2").2.experiments :=
  (set_session_preserves_run
    { is_loss := false, tuning_session := some SessionTag.initial,
      tuning_session_id := some INITIAL_EXPERIMENT_NAME,
      run_active := false, run_params := none, run_id := none,
      accumulators := [] }
    ⟨[INITIAL_EXPERIMENT_NAME]⟩ "s2").2.2.2.2.2.2.1 rfl

/-! ## C8: invalid transitions raise -/

/-- C8: `set_run` on the reserved initial session raises ValueError and
returns the manager and store unchanged; `get_quality` and `save_model`
with no active run raise ValueError (they are pure queries of the state, so
the session/run state is untouched); none of these silently no-ops. -/
theorem invalid_transitions_raise (m : MgrState) (st : Store) (p : String)
    (runs : List RunRecord) (b : Bool) :
    (m.tuning_session = some SessionTag.initial →
      set_run m st p = ((m, st), some PyError.valueError)) ∧
    (m.run_id = none → get_quality m runs = Except.error PyError.valueError) ∧
    (m.run_id = none → save_model m runs b = Except.error PyError.valueError) := by
  refine ⟨?_, ?_, ?_⟩
  · intro h
    simp [set_run, h]
  · intro h
    by_cases hi : m.tuning_session = some SessionTag.initial <;>
      simp [get_quality, h, hi]
  · intro h
    by_cases hi : m.tuning_session = some SessionTag.initial <;>
      simp [save_model, h, hi]

/-- Witness for C8: a manager on the reserved initial session with no run. -/
theorem invalid_transitions_raise_witness :
    set_run
      { is_loss := false, tuning_session := some SessionTag.initial,
        tuning_session_id := some INITIAL_EXPERIMENT_NAME,
        run_active := false, run_params := none, run_id := none,
        accumulators := [] }
      ⟨[INITIAL_EXPERIMENT_NAME]⟩ "p"
      = (({ is_loss := false, tuning_session := some SessionTag.initial,
            tuning_session_id := some INITIAL_EXPERIMENT_NAME,
            run_active := false, run_params := none, run_id := none,
            accumulators := [] }, ⟨[INITIAL_EXPERIMENT_NAME]⟩),
         some PyError.valueError) ∧
    get_quality
      { is_loss := false, tuning_session := some SessionTag.initial,
        tuning_session_id := some INITIAL_EXPERIMENT_NAME,
        run_active := false, run_params := none, run_id := none,
        accumulators := [] } [] = Except.error PyError.valueError ∧
    save_model
      { is_loss := false, tuning_session := some SessionTag.initial,
        tuning_session_id := some INITIAL_EXPERIMENT_NAME,
        run_active := false, run_params := none, run_id := none,
        accumulators := [] } [] true = Except.error PyError.valueError := by
  have h := invalid_transitions_raise
    { is_loss := false, tuning_session := some SessionTag.initial,
      tuning_session_id := some INITIAL_EXPERIMENT_NAME,
      run_active := false, run_params := none, run_id := none,
      accumulators := [] }
    ⟨[INITIAL_EXPERIMENT_NAME]⟩ "p" [] true
  exact ⟨h.1 rfl, h.2.1 rfl, h.2.2 rfl⟩

/-! ## C9: sweep exception handling -/

/-- C9 counterexample: with two trials of which the first raises, only one
trial ever starts -- the exception is suppressed at the outermost level, but
the sweep does not continue to the next trial, refuting the claim. -/
theorem sweep_aborts_after_trial_exception :
    (finetune_embedding_model true
      [TrialOutcome.exn, TrialOutcome.ok 1]).trialsStarted = 1 ∧
    (finetune_embedding_model true
      [TrialOutcome.exn, TrialOutcome.ok 1]).trialsStarted ≠ 2 := by
  refine ⟨rfl, by decide⟩

/-- C9 amended: a trial exception is caught and suppressed at the outermost
orchestration level, but it aborts the remaining trials -- exactly the
trials up to and including the first raising one start; in every case the
temporary initial-model file is removed when present and the tracker session
is still finished. -/
theorem sweep_suppresses_and_aborts :
    (∀ b ts, (finetune_embedding_model b ts).sessionFinished = true ∧
      (finetune_embedding_model b ts).fileExistsAfter = false) ∧
    (∀ pre post, (∀ t ∈ pre, t ≠ TrialOutcome.exn) →
      (finetune_embedding_model true
        (pre ++ TrialOutcome.exn :: post)).trialsStarted = pre.length + 1) := by
  constructor
  · intro b ts
    exact ⟨rfl, rfl⟩
  · intro pre post hok
    have hrun : ∀ (post2 : List TrialOutcome) (l : List TrialOutcome),
        (∀ t ∈ l, t ≠ TrialOutcome.exn) →
        run_trials (l ++ TrialOutcome.exn :: post2) = (l.length + 1, true) := by
      intro post2 l
      induction l with
      | nil => intro _; rfl
      | cons t ts ih =>
        intro h
        have ht : t ≠ TrialOutcome.exn := h t (List.mem_cons_self _ _)
        cases t with
        | exn => exact absurd rfl ht
        | ok q =>
          have := ih (fun x hx => h x (List.mem_cons_of_mem _ hx))
          simp [run_trials, this, List.length_cons]
    simp [finetune_embedding_model, hrun post pre hok]

/-- Witness for C9 amended: one successful trial before the raising one. -/
theorem sweep_suppresses_and_aborts_witness :
    (finetune_embedding_model true
      [TrialOutcome.ok 0, TrialOutcome.exn]).trialsStarted = 1 + 1 ∧
    (finetune_embedding_model true
      [TrialOutcome.ok 0, TrialOutcome.exn]).sessionFinished = true :=
  ⟨sweep_suppresses_and_aborts.2 [TrialOutcome.ok 0] [] (by decide),
   (sweep_suppresses_and_aborts.1 true [TrialOutcome.ok 0, TrialOutcome.exn]).1⟩

/-! ## C3: accumulation -/

/-- C3 counterexample: A has only `positive_ranks = [1]`, B has only
`negative_ranks = [2]`; accumulation succeeds but the resulting
`positive_ranks` is absent, not a present field of length
len(A) + len(B) = 1 (the A-values-then-B-values concatenation `[1] ++ []`),
refuting the claim. -/
theorem iadd_drops_self_only_field :
    SessionFeatures.iadd ⟨some [1], none, none, none, none⟩
        ⟨none, some [2], none, none, none⟩
      = Except.ok ⟨none, some [2], none, none, none⟩ ∧
    (none : Option (List ℚ)) ≠ some ([1] ++ []) := by
  exact ⟨rfl, by simp⟩

/-- C3 amended: accumulating B into A yields, for every field present in B,
A's values (empty when A's field is absent) followed by B's values; every
field absent in B comes back absent, even when present in A; the result
satisfies the length invariant, or the operation fails with ValueError. -/
theorem iadd_fieldwise (A B : SessionFeatures) :
    (∀ s2, SessionFeatures.iadd A B = Except.ok s2 →
      accSpec A.positive_ranks B.positive_ranks s2.positive_ranks ∧
      accSpec A.negative_ranks B.negative_ranks s2.negative_ranks ∧
      accSpec A.target B.target s2.target ∧
      accSpec A.positive_confidences B.positive_confidences s2.positive_confidences ∧
      accSpec A.negative_confidences B.negative_confidences s2.negative_confidences ∧
      allEqual s2.presentLengths = true) ∧
    (∀ e, SessionFeatures.iadd A B = Except.error e → e = PyError.valueError) := by
  have hacc : ∀ a b, accSpec a b (accumulate a b) := by
    intro a b
    cases a <;> cases b <;> simp [accumulate, accSpec]
  have hi : SessionFeatures.iadd A B =
      (match SessionFeatures.check_lengths
          ⟨accumulate A.positive_ranks B.positive_ranks,
           accumulate A.negative_ranks B.negative_ranks,
           accumulate A.target B.target,
           accumulate A.positive_confidences B.positive_confidences,
           accumulate A.negative_confidences B.negative_confidences⟩ with
       | some err => Except.error err
       | none => Except.ok
          ⟨accumulate A.positive_ranks B.positive_ranks,
           accumulate A.negative_ranks B.negative_ranks,
           accumulate A.target B.target,
           accumulate A.positive_confidences B.positive_confidences,
           accumulate A.negative_confidences B.negative_confidences⟩) := rfl
  constructor
  · intro s2 h
    rw [hi] at h
    cases hch : SessionFeatures.check_lengths
        ⟨accumulate A.positive_ranks B.positive_ranks,
         accumulate A.negative_ranks B.negative_ranks,
         accumulate A.target B.target,
         accumulate A.positive_confidences B.positive_confidences,
         accumulate A.negative_confidences B.negative_confidences⟩ with
    | some e =>
      rw [hch] at h
      exact absurd h (by simp)
    | none =>
      rw [hch] at h
      obtain rfl : (⟨accumulate A.positive_ranks B.positive_ranks,
          accumulate A.negative_ranks B.negative_ranks,
          accumulate A.target B.target,
          accumulate A.positive_confidences B.positive_confidences,
          accumulate A.negative_confidences B.negative_confidences⟩
            : SessionFeatures) = s2 := by
        injection h
      refine ⟨hacc _ _, hacc _ _, hacc _ _, hacc _ _, hacc _ _, ?_⟩
      unfold SessionFeatures.check_lengths at hch
      by_cases hae : allEqual (SessionFeatures.presentLengths
          ⟨accumulate A.positive_ranks B.positive_ranks,
           accumulate A.negative_ranks B.negative_ranks,
           accumulate A.target B.target,
           accumulate A.positive_confidences B.positive_confidences,
           accumulate A.negative_confidences B.negative_confidences⟩) = true
      · exact hae
      · rw [if_neg hae] at hch
        exact absurd hch (by simp)
  · intro e h
    rw [hi] at h
    cases hch : SessionFeatures.check_lengths
        ⟨accumulate A.positive_ranks B.positive_ranks,
         accumulate A.negative_ranks B.negative_ranks,
         accumulate A.target B.target,
         accumulate A.positive_confidences B.positive_confidences,
         accumulate A.negative_confidences B.negative_confidences⟩ with
    | some e2 =>
      rw [hch] at h
      obtain rfl : e2 = e := by injection h
      unfold SessionFeatures.check_lengths at hch
      by_cases hae : allEqual (SessionFeatures.presentLengths
          ⟨accumulate A.positive_ranks B.positive_ranks,
           accumulate A.negative_ranks B.negative_ranks,
           accumulate A.target B.target,
           accumulate A.positive_confidences B.positive_confidences,
           accumulate A.negative_confidences B.negative_confidences⟩) = true
      · rw [if_pos hae] at hch
        exact absurd hch (by simp)
      · rw [if_neg hae] at hch
        injection hch with hch2
        exact hch2.symm
    | none =>
      rw [hch] at h
      exact absurd h (by simp)

/-- Witness for C3 amended: both operands have all five fields present; all
five result fields are the concatenations. -/
theorem iadd_fieldwise_witness :
    accSpec (some [1]) (some [2])
      ((⟨some [1, 2], some [3, 4], some [5, 6], some [7, 8], some [9, 10]⟩
        : SessionFeatures).positive_ranks) ∧
    accSpec (some [3]) (some [4])
      ((⟨some [1, 2], some [3, 4], some [5, 6], some [7, 8], some [9, 10]⟩
        : SessionFeatures).negative_ranks) ∧
    accSpec (some [5]) (some [6])
      ((⟨some [1, 2], some [3, 4], some [5, 6], some [7, 8], some [9, 10]⟩
        : SessionFeatures).target) ∧
    accSpec (some [7]) (some [8])
      ((⟨some [1, 2], some [3, 4], some [5, 6], some [7, 8], some [9, 10]⟩
        : SessionFeatures).positive_confidences) ∧
    accSpec (some [9]) (some [10])
      ((⟨some [1, 2], some [3, 4], some [5, 6], some [7, 8], some [9, 10]⟩
        : SessionFeatures).negative_confidences) ∧
    allEqual ((⟨some [1, 2], some [3, 4], some [5, 6], some [7, 8], some [9, 10]⟩
      : SessionFeatures).presentLengths) = true :=
  (iadd_fieldwise ⟨some [1], some [3], some [5], some [7], some [9]⟩
    ⟨some [2], some [4], some [6], some [8], some [10]⟩).1
    ⟨some [1, 2], some [3, 4], some [5, 6], some [7, 8], some [9, 10]⟩ rfl

/-! ## C4: construction / mutation validation -/

theorem invariant_of_validate {s : RawFeatures} (h : s.validate = none) :
    RawInvariant s := by
  unfold RawFeatures.validate at h
  cases hct : s.check_types with
  | some e =>
    rw [hct] at h
    exact absurd h (by simp)
  | none =>
    rw [hct] at h
    have hall : s.fieldsList.all okType = true := by
      unfold RawFeatures.check_types at hct
      by_cases hb : s.fieldsList.all okType = true
      · exact hb
      · rw [if_neg hb] at hct
        exact absurd hct (by simp)
    have hae : allEqual s.presentLengths = true := by
      unfold RawFeatures.check_lengths at h
      by_cases hb : allEqual s.presentLengths = true
      · exact hb
      · rw [if_neg hb] at h
        exact absurd h (by simp)
    constructor
    · intro o ho heq
      have := List.all_eq_true.mp hall o ho
      rw [heq] at this
      simp [okType] at this
    · intro o1 h1 o2 h2 xs ys e1 e2
      have hx : xs.length ∈ s.presentLengths :=
        List.mem_filterMap.mpr ⟨o1, h1, by rw [e1]⟩
      have hy : ys.length ∈ s.presentLengths :=
        List.mem_filterMap.mpr ⟨o2, h2, by rw [e2]⟩
      exact allEqual_spec hae _ hx _ hy

/-- C4 counterexample: on a valid object with `positive_ranks` of length 1,
the `negative_ranks` setter with a length-2 tensor raises ValueError -- but
the returned object already holds the new field, so a caller that catches
the exception observes a state violating the equal-length invariant,
refuting the no-invalid-state-observable claim. -/
theorem setter_leaves_invalid_state :
    RawFeatures.set_negative_ranks
        ⟨some (PyVal.tensor [1]), none, none, none, none⟩
        (some (PyVal.tensor [1, 2]))
      = (⟨some (PyVal.tensor [1]), some (PyVal.tensor [1, 2]), none, none, none⟩,
         some PyError.valueError) ∧
    ¬ RawInvariant
        ⟨some (PyVal.tensor [1]), some (PyVal.tensor [1, 2]), none, none, none⟩ := by
  constructor
  · rfl
  · intro h
    have := h.2 (some (PyVal.tensor [1]))
      (by simp [RawFeatures.fieldsList])
      (some (PyVal.tensor [1, 2]))
      (by simp [RawFeatures.fieldsList])
      [1] [1, 2] rfl rfl
    simp at this

/-- C4 amended: a construction or a setter mutation that completes without
raising yields an object satisfying the invariant (all present fields are
tensors of one common length); construction raises TypeError when a present
field is not a tensor, and ValueError when the present tensors have
differing lengths; but a setter that raises has already assigned the field,
so the invalid state is observable to a caller catching the exception. -/
theorem validation_spec (a b c d e : Option PyVal) (v : Option PyVal)
    (s : RawFeatures) :
    (∀ s0, init_features a b c d e = Except.ok s0 → RawInvariant s0) ∧
    (¬ (RawFeatures.fieldsList ⟨a, b, c, d, e⟩).all okType = true →
      init_features a b c d e = Except.error PyError.typeError) ∧
    ((RawFeatures.fieldsList ⟨a, b, c, d, e⟩).all okType = true →
      ¬ allEqual (RawFeatures.presentLengths ⟨a, b, c, d, e⟩) = true →
      init_features a b c d e = Except.error PyError.valueError) ∧
    ((s.set_positive_ranks v).2 = none → RawInvariant (s.set_positive_ranks v).1) ∧
    ((s.set_negative_ranks v).2 = none → RawInvariant (s.set_negative_ranks v).1) ∧
    ((s.set_target v).2 = none → RawInvariant (s.set_target v).1) ∧
    ((s.set_positive_confidences v).2 = none →
      RawInvariant (s.set_positive_confidences v).1) ∧
    ((s.set_negative_confidences v).2 = none →
      RawInvariant (s.set_negative_confidences v).1) := by
  refine ⟨?_, ?_, ?_, ?_, ?_, ?_, ?_, ?_⟩
  · intro s0 h
    have hi : init_features a b c d e =
        (match RawFeatures.validate ⟨a, b, c, d, e⟩ with
         | some err => Except.error err
         | none => Except.ok ⟨a, b, c, d, e⟩) := rfl
    rw [hi] at h
    cases hv : RawFeatures.validate ⟨a, b, c, d, e⟩ with
    | some err =>
      rw [hv] at h
      exact absurd h (by simp)
    | none =>
      rw [hv] at h
      obtain rfl : (⟨a, b, c, d, e⟩ : RawFeatures) = s0 := by injection h
      exact invariant_of_validate hv
  · intro hbad
    have hct : RawFeatures.check_types ⟨a, b, c, d, e⟩ = some PyError.typeError := by
      unfold RawFeatures.check_types
      rw [if_neg hbad]
    show (match RawFeatures.validate ⟨a, b, c, d, e⟩ with
         | some err => Except.error err
         | none => Except.ok (⟨a, b, c, d, e⟩ : RawFeatures)) = _
    unfold RawFeatures.validate
    rw [hct]
  · intro hok hbad
    have hct : RawFeatures.check_types ⟨a, b, c, d, e⟩ = none := by
      unfold RawFeatures.check_types
      rw [if_pos hok]
    have hcl : RawFeatures.check_lengths ⟨a, b, c, d, e⟩ = some PyError.valueError := by
      unfold RawFeatures.check_lengths
      rw [if_neg hbad]
    show (match RawFeatures.validate ⟨a, b, c, d, e⟩ with
         | some err => Except.error err
         | none => Except.ok (⟨a, b, c, d, e⟩ : RawFeatures)) = _
    unfold RawFeatures.validate
    rw [hct, hcl]
  · exact fun h => invariant_of_validate h
  · exact fun h => invariant_of_validate h
  · exact fun h => invariant_of_validate h
  · exact fun h => invariant_of_validate h
  · exact fun h => invariant_of_validate h

/-- Witness for C4 amended: a valid two-field construction satisfies the
invariant. -/
theorem validation_spec_witness :
    RawInvariant ⟨some (PyVal.tensor [1]), some (PyVal.tensor [2]), none, none, none⟩ :=
  (validation_spec (some (PyVal.tensor [1])) (some (PyVal.tensor [2]))
      none none none none ⟨none, none, none, none, none⟩).1
    ⟨some (PyVal.tensor [1]), some (PyVal.tensor [2]), none, none, none⟩ rfl

/-! ## C5 / C10: clamp_diff_in -/

theorem applyMask_map {α : Type} (p : α → Bool) (f : α → ℚ) (l : List α) :
    applyMask (l.map p) (l.map f) = (l.filter p).map f := by
  induction l with
  | nil => rfl
  | cons a as ih =>
    by_cases h : p a
    · simp only [List.map_cons, List.filter_cons, h, if_pos]
      show applyMask (true :: as.map p) (f a :: as.map f) = f a :: (as.filter p).map f
      rw [applyMask, ih]
    · simp only [List.map_cons, List.filter_cons, h]
      show applyMask (false :: as.map p) (f a :: as.map f) = _
      rw [applyMask, ih]
      simp [h]

theorem applyMask_zip_snd (p : ℚ × ℚ → Bool) (z : List (ℚ × ℚ)) (g : List ℚ)
    (hg : g.length = z.length) :
    applyMask (z.map p) g = ((z.zip g).filter fun w => p w.1).map Prod.snd := by
  have h1 : (z.zip g).map Prod.snd = g :=
    List.map_snd_zip z g (le_of_eq hg)
  have h0 : (z.zip g).map Prod.fst = z :=
    List.map_fst_zip z g (le_of_eq hg.symm)
  have h2 : z.map p = (z.zip g).map (fun w => p w.1) := by
    conv_lhs => rw [← h0]
    rw [List.map_map]
    rfl
  have key := applyMask_map (fun w => p w.1) Prod.snd (z.zip g)
  rw [← h2, h1] at key
  exact key

theorem filter_zip_fst_length (p : ℚ × ℚ → Bool) (z : List (ℚ × ℚ)) (g : List ℚ)
    (hg : g.length = z.length) :
    ((z.zip g).filter fun w => p w.1).length = (z.filter p).length := by
  induction z generalizing g with
  | nil => simp
  | cons a zs ih =>
    cases g with
    | nil => simp at hg
    | cons b gs =>
      have hg2 : gs.length = zs.length := by
        simpa using hg
      by_cases h : p a
      · simp only [List.zip_cons_cons, List.filter_cons]
        simp only [h, if_pos]
        simp [ih gs hg2]
      · simp only [List.zip_cons_cons, List.filter_cons]
        simp only [h]
        simp [ih gs hg2]

/-- The one-step computation of `clamp_diff_in` on an all-present,
length-consistent state: it filters all five fields in lockstep by the
strict band condition on the rank difference. -/
theorem clamp_all_present (mn mx : ℚ) (pos neg tgt pc nc : List ℚ)
    (hn : neg.length = pos.length) (ht : tgt.length = pos.length)
    (hp : pc.length = pos.length) (hc : nc.length = pos.length) :
    SessionFeatures.clamp_diff_in
        ⟨some pos, some neg, some tgt, some pc, some nc⟩ mn mx
      = Except.ok
        ⟨some (((pos.zip neg).filter (keepPair mn mx)).map Prod.fst),
         some (((pos.zip neg).filter (keepPair mn mx)).map Prod.snd),
         some ((((pos.zip neg).zip tgt).filter fun w => keepPair mn mx w.1).map Prod.snd),
         some ((((pos.zip neg).zip pc).filter fun w => keepPair mn mx w.1).map Prod.snd),
         some ((((pos.zip neg).zip nc).filter fun w => keepPair mn mx w.1).map Prod.snd)⟩ := by
  have hz : (pos.zip neg).length = pos.length := by
    rw [List.length_zip, hn, min_self]
  have hfst : applyMask ((pos.zip neg).map (keepPair mn mx)) pos
      = ((pos.zip neg).filter (keepPair mn mx)).map Prod.fst := by
    have key := applyMask_map (keepPair mn mx) Prod.fst (pos.zip neg)
    rw [List.map_fst_zip pos neg (le_of_eq hn.symm)] at key
    exact key
  have hsnd : applyMask ((pos.zip neg).map (keepPair mn mx)) neg
      = ((pos.zip neg).filter (keepPair mn mx)).map Prod.snd := by
    have key := applyMask_map (keepPair mn mx) Prod.snd (pos.zip neg)
    rw [List.map_snd_zip pos neg (le_of_eq hn)] at key
    exact key
  have htgt := applyMask_zip_snd (keepPair mn mx) (pos.zip neg) tgt (ht.trans hz.symm)
  have hpc := applyMask_zip_snd (keepPair mn mx) (pos.zip neg) pc (hp.trans hz.symm)
  have hnc := applyMask_zip_snd (keepPair mn mx) (pos.zip neg) nc (hc.trans hz.symm)
  have hstep : SessionFeatures.clamp_diff_in
      ⟨some pos, some neg, some tgt, some pc, some nc⟩ mn mx
      = (match SessionFeatures.check_lengths
          ⟨some (applyMask ((pos.zip neg).map (keepPair mn mx)) pos),
           some (applyMask ((pos.zip neg).map (keepPair mn mx)) neg),
           some (applyMask ((pos.zip neg).map (keepPair mn mx)) tgt),
           some (applyMask ((pos.zip neg).map (keepPair mn mx)) pc),
           some (applyMask ((pos.zip neg).map (keepPair mn mx)) nc)⟩ with
         | some err => Except.error err
         | none => Except.ok
          ⟨some (applyMask ((pos.zip neg).map (keepPair mn mx)) pos),
           some (applyMask ((pos.zip neg).map (keepPair mn mx)) neg),
           some (applyMask ((pos.zip neg).map (keepPair mn mx)) tgt),
           some (applyMask ((pos.zip neg).map (keepPair mn mx)) pc),
           some (applyMask ((pos.zip neg).map (keepPair mn mx)) nc)⟩) := rfl
  rw [hstep, hfst, hsnd, htgt, hpc, hnc]
  have hL3 := filter_zip_fst_length (keepPair mn mx) (pos.zip neg) tgt (ht.trans hz.symm)
  have hL4 := filter_zip_fst_length (keepPair mn mx) (pos.zip neg) pc (hp.trans hz.symm)
  have hL5 := filter_zip_fst_length (keepPair mn mx) (pos.zip neg) nc (hc.trans hz.symm)
  have hck : SessionFeatures.check_lengths
      ⟨some (((pos.zip neg).filter (keepPair mn mx)).map Prod.fst),
       some (((pos.zip neg).filter (keepPair mn mx)).map Prod.snd),
       some ((((pos.zip neg).zip tgt).filter fun w => keepPair mn mx w.1).map Prod.snd),
       some ((((pos.zip neg).zip pc).filter fun w => keepPair mn mx w.1).map Prod.snd),
       some ((((pos.zip neg).zip nc).filter fun w => keepPair mn mx w.1).map Prod.snd)⟩
      = none := by
    unfold SessionFeatures.check_lengths
    have hpl : SessionFeatures.presentLengths
        ⟨some (((pos.zip neg).filter (keepPair mn mx)).map Prod.fst),
         some (((pos.zip neg).filter (keepPair mn mx)).map Prod.snd),
         some ((((pos.zip neg).zip tgt).filter fun w => keepPair mn mx w.1).map Prod.snd),
         some ((((pos.zip neg).zip pc).filter fun w => keepPair mn mx w.1).map Prod.snd),
         some ((((pos.zip neg).zip nc).filter fun w => keepPair mn mx w.1).map Prod.snd)⟩
        = [((pos.zip neg).filter (keepPair mn mx)).length,
           ((pos.zip neg).filter (keepPair mn mx)).length,
           ((pos.zip neg).filter (keepPair mn mx)).length,
           ((pos.zip neg).filter (keepPair mn mx)).length,
           ((pos.zip neg).filter (keepPair mn mx)).length] := by
      simp [SessionFeatures.presentLengths, hL3, hL4, hL5]
    rw [hpl]
    simp [allEqual]
  rw [hck]

/-- A state whose rank pairs all satisfy the keep-condition is a fixed
point of `clamp_diff_in`. -/
theorem clamp_fixed_point (mn mx : ℚ) (F : List (ℚ × ℚ))
    (hFs : F.filter (keepPair mn mx) = F)
    (tgt pc nc : List ℚ) (ht : tgt.length = F.length)
    (hp : pc.length = F.length) (hc : nc.length = F.length) :
    SessionFeatures.clamp_diff_in
        ⟨some (F.map Prod.fst), some (F.map Prod.snd), some tgt, some pc, some nc⟩ mn mx
      = Except.ok
        ⟨some (F.map Prod.fst), some (F.map Prod.snd), some tgt, some pc, some nc⟩ := by
  have h2 := clamp_all_present mn mx (F.map Prod.fst) (F.map Prod.snd) tgt pc nc
    (by simp) (by simp [ht]) (by simp [hp]) (by simp [hc])
  have hzipF : (F.map Prod.fst).zip (F.map Prod.snd) = F := by
    rw [List.zip_map']
    simp
  rw [hzipF, hFs] at h2
  have hall : ∀ w ∈ F, keepPair mn mx w = true := List.filter_eq_self.mp hFs
  have hst : ∀ g : List ℚ, g.length = F.length →
      ((F.zip g).filter fun w => keepPair mn mx w.1).map Prod.snd = g := by
    intro g hg
    have hfix : (F.zip g).filter (fun w => keepPair mn mx w.1) = F.zip g :=
      List.filter_eq_self.mpr fun w hw => hall w.1 (List.of_mem_zip hw).1
    rw [hfix]
    exact List.map_snd_zip _ _ (le_of_eq hg)
  rw [hst tgt ht, hst pc hp, hst nc hc] at h2
  exact h2

set_option maxHeartbeats 1600000 in
/-- C5: on a features object with all five fields present and equal
lengths, `clamp_diff_in(min, max)` succeeds, retaining exactly the examples
with `min < |pos - neg| < max` (strict on both sides) and applying the same
mask to all five fields in lockstep, so the equal-length invariant holds on
the result; a second application with the same bounds returns the result
unchanged. -/
theorem clamp_diff_in_filters_and_idempotent (mn mx : ℚ)
    (pos neg tgt pc nc : List ℚ)
    (hn : neg.length = pos.length) (ht : tgt.length = pos.length)
    (hp : pc.length = pos.length) (hc : nc.length = pos.length) :
    ∃ s2, SessionFeatures.clamp_diff_in
        ⟨some pos, some neg, some tgt, some pc, some nc⟩ mn mx = Except.ok s2 ∧
      s2.positive_ranks = some (((pos.zip neg).filter (keepPair mn mx)).map Prod.fst) ∧
      s2.negative_ranks = some (((pos.zip neg).filter (keepPair mn mx)).map Prod.snd) ∧
      s2.target = some ((((pos.zip neg).zip tgt).filter fun w => keepPair mn mx w.1).map Prod.snd) ∧
      s2.positive_confidences
        = some ((((pos.zip neg).zip pc).filter fun w => keepPair mn mx w.1).map Prod.snd) ∧
      s2.negative_confidences
        = some ((((pos.zip neg).zip nc).filter fun w => keepPair mn mx w.1).map Prod.snd) ∧
      allEqual s2.presentLengths = true ∧
      SessionFeatures.clamp_diff_in s2 mn mx = Except.ok s2 := by
  have hz : (pos.zip neg).length = pos.length := by
    rw [List.length_zip, hn, min_self]
  have h1 := clamp_all_present mn mx pos neg tgt pc nc hn ht hp hc
  refine ⟨_, h1, rfl, rfl, rfl, rfl, rfl, ?_, ?_⟩
  · have hL3 := filter_zip_fst_length (keepPair mn mx) (pos.zip neg) tgt (ht.trans hz.symm)
    have hL4 := filter_zip_fst_length (keepPair mn mx) (pos.zip neg) pc (hp.trans hz.symm)
    have hL5 := filter_zip_fst_length (keepPair mn mx) (pos.zip neg) nc (hc.trans hz.symm)
    simp [SessionFeatures.presentLengths, allEqual, hL3, hL4, hL5]
  · -- second application: every retained pair already satisfies the band
    have hFs : ((pos.zip neg).filter (keepPair mn mx)).filter (keepPair mn mx)
        = (pos.zip neg).filter (keepPair mn mx) :=
      List.filter_eq_self.mpr fun a ha => List.of_mem_filter ha
    have hlt : ((((pos.zip neg).zip tgt).filter fun w => keepPair mn mx w.1).map Prod.snd).length
        = ((pos.zip neg).filter (keepPair mn mx)).length := by
      rw [List.length_map,
        filter_zip_fst_length (keepPair mn mx) (pos.zip neg) tgt (ht.trans hz.symm)]
    have hlp : ((((pos.zip neg).zip pc).filter fun w => keepPair mn mx w.1).map Prod.snd).length
        = ((pos.zip neg).filter (keepPair mn mx)).length := by
      rw [List.length_map,
        filter_zip_fst_length (keepPair mn mx) (pos.zip neg) pc (hp.trans hz.symm)]
    have hln : ((((pos.zip neg).zip nc).filter fun w => keepPair mn mx w.1).map Prod.snd).length
        = ((pos.zip neg).filter (keepPair mn mx)).length := by
      rw [List.length_map,
        filter_zip_fst_length (keepPair mn mx) (pos.zip neg) nc (hc.trans hz.symm)]
    exact clamp_fixed_point mn mx ((pos.zip neg).filter (keepPair mn mx)) hFs
      _ _ _ hlt hlp hln

/-- Witness for C5: ranks with differences 0, 3 and 10 against the band
(1, 5) keep exactly the middle example, and the filtering is idempotent. -/
theorem clamp_diff_in_filters_and_idempotent_witness :
    ∃ s2, SessionFeatures.clamp_diff_in
        ⟨some [1, 4, 11], some [1, 1, 1], some [1, 1, -1], some [2, 2, 2], some [3, 3, 3]⟩
        1 5 = Except.ok s2 ∧
      s2.positive_ranks = some ((([(1 : ℚ), 4, 11].zip [(1 : ℚ), 1, 1]).filter
        (keepPair 1 5)).map Prod.fst) ∧
      s2.negative_ranks = some ((([(1 : ℚ), 4, 11].zip [(1 : ℚ), 1, 1]).filter
        (keepPair 1 5)).map Prod.snd) ∧
      s2.target = some (((([(1 : ℚ), 4, 11].zip [(1 : ℚ), 1, 1]).zip [(1 : ℚ), 1, -1]).filter
        fun w => keepPair 1 5 w.1).map Prod.snd) ∧
      s2.positive_confidences
        = some (((([(1 : ℚ), 4, 11].zip [(1 : ℚ), 1, 1]).zip [(2 : ℚ), 2, 2]).filter
          fun w => keepPair 1 5 w.1).map Prod.snd) ∧
      s2.negative_confidences
        = some (((([(1 : ℚ), 4, 11].zip [(1 : ℚ), 1, 1]).zip [(3 : ℚ), 3, 3]).filter
          fun w => keepPair 1 5 w.1).map Prod.snd) ∧
      allEqual s2.presentLengths = true ∧
      SessionFeatures.clamp_diff_in s2 1 5 = Except.ok s2 :=
  clamp_diff_in_filters_and_idempotent 1 5 [1, 4, 11] [1, 1, 1] [1, 1, -1]
    [2, 2, 2] [3, 3, 3] rfl rfl rfl rfl

/-- C10: when both rank fields are present but `target`,
`positive_confidences` or `negative_confidences` is absent,
`clamp_diff_in` raises TypeError (the absent field is indexed with the
boolean mask) -- it neither filters only the present fields nor no-ops. -/
theorem clamp_diff_in_absent_field_type_error (mn mx : ℚ) (pos neg : List ℚ)
    (t p n : Option (List ℚ))
    (habs : t = none ∨ p = none ∨ n = none) :
    SessionFeatures.clamp_diff_in ⟨some pos, some neg, t, p, n⟩ mn mx
      = Except.error PyError.typeError := by
  rcases habs with rfl | rfl | rfl
  · rfl
  · cases t with
    | none => rfl
    | some tt => rfl
  · cases t with
    | none => rfl
    | some tt =>
      cases p with
      | none => rfl
      | some pp => rfl

/-- Witness for C10: ranks present, `target` absent. -/
theorem clamp_diff_in_absent_field_type_error_witness :
    SessionFeatures.clamp_diff_in
        ⟨some [1, 2], some [3, 4], none, some [5, 6], some [7, 8]⟩ 0 10
      = Except.error PyError.typeError :=
  clamp_diff_in_absent_field_type_error 0 10 [1, 2] [3, 4] none
    (some [5, 6]) (some [7, 8]) (Or.inl rfl)

/-! ## C6: use_positive_from -/

/-- C6 counterexample: self has one negative example, other has two
positives; the borrowed ranks are truncated into `positive_ranks` but the
full untruncated tensor lands in `positive_confidences`, so the final
length check raises ValueError -- refuting the claim that the call
re-satisfies the invariants without raising. -/
theorem use_positive_from_raises_when_negatives_shorter :
    SessionFeatures.use_positive_from
        ⟨none, some [1], some [1], none, some [1]⟩
        ⟨some [1, 2], none, none, none, none⟩
      = Except.error PyError.valueError := by
  rfl

/-- C6 amended: when the borrowing session has negatives, target and
negative confidences (and no positives), the other session is valid with
positives present, and the other session's positive count does not exceed
the self negative count, `use_positive_from` truncates self's three fields
to the positive count, stores the borrowed positive ranks both as
`positive_ranks` and as `positive_confidences` (the documented quirk), and
the result satisfies the equal-length invariant; when self's negative set
is strictly shorter, the untruncated ranks land in the confidence slot and
the final length check raises ValueError instead. -/
theorem use_positive_from_truncating (sneg tgt nconf : List ℚ)
    (o : SessionFeatures) (opos : List ℚ)
    (ho : o.positive_ranks = some opos)
    (hoval : allEqual o.presentLengths = true)
    (hlen1 : tgt.length = sneg.length) (hlen2 : nconf.length = sneg.length)
    (hle : opos.length ≤ sneg.length) :
    SessionFeatures.use_positive_from
        ⟨none, some sneg, some tgt, none, some nconf⟩ o
      = Except.ok ⟨some opos, some (sneg.take opos.length),
          some (tgt.take opos.length), some opos,
          some (nconf.take opos.length)⟩ ∧
    allEqual (SessionFeatures.presentLengths
      ⟨some opos, some (sneg.take opos.length),
       some (tgt.take opos.length), some opos,
       some (nconf.take opos.length)⟩) = true := by
  have hck : o.check_lengths = none := by
    unfold SessionFeatures.check_lengths
    rw [if_pos hoval]
  have hlens : allEqual (SessionFeatures.presentLengths
      ⟨some opos, some (sneg.take opos.length),
       some (tgt.take opos.length), some opos,
       some (nconf.take opos.length)⟩) = true := by
    have l1 : (sneg.take opos.length).length = opos.length := by
      rw [List.length_take]
      exact min_eq_left hle
    have l2 : (tgt.take opos.length).length = opos.length := by
      rw [List.length_take]
      exact min_eq_left (hlen1 ▸ hle)
    have l3 : (nconf.take opos.length).length = opos.length := by
      rw [List.length_take]
      exact min_eq_left (hlen2 ▸ hle)
    simp [SessionFeatures.presentLengths, allEqual, l1, l2, l3]
  refine ⟨?_, hlens⟩
  have hnot1 : ¬ sneg.length < opos.length := not_lt.mpr hle
  rcases lt_or_eq_of_le hle with hlt | heq
  · have hcl : SessionFeatures.check_lengths
        ⟨some opos, some (sneg.take opos.length),
         some (tgt.take opos.length), some opos,
         some (nconf.take opos.length)⟩ = none := by
      unfold SessionFeatures.check_lengths
      rw [if_pos hlens]
    simp only [SessionFeatures.use_positive_from, hck, ho, hnot1, if_false,
      hlt, if_true, truncIndex, bind, Except.bind, hcl]
  · have hnot2 : ¬ opos.length < sneg.length := by
      rw [heq]
      exact lt_irrefl _
    have e1 : sneg.take opos.length = sneg := by
      rw [heq, List.take_length]
    have e2 : tgt.take opos.length = tgt := by
      rw [heq, ← hlen1, List.take_length]
    have e3 : nconf.take opos.length = nconf := by
      rw [heq, ← hlen2, List.take_length]
    have hlens2 := hlens
    rw [e1, e2, e3] at hlens2
    have hcl : SessionFeatures.check_lengths
        ⟨some opos, some sneg, some tgt, some opos, some nconf⟩ = none := by
      unfold SessionFeatures.check_lengths
      rw [if_pos hlens2]
    rw [e1, e2, e3]
    simp only [SessionFeatures.use_positive_from, hck, ho, hnot1, hnot2,
      if_false, hcl]

/-- Witness for C6 amended: self has two negatives, other has one positive;
the negatives, target and confidences are truncated to length one. -/
theorem use_positive_from_truncating_witness :
    SessionFeatures.use_positive_from
        ⟨none, some [1, 2], some [3, 4], none, some [5, 6]⟩
        ⟨some [7], none, none, none, none⟩
      = Except.ok ⟨some [7], some ([1, 2].take 1), some ([3, 4].take 1),
          some [7], some ([5, 6].take 1)⟩ ∧
    allEqual (SessionFeatures.presentLengths
      ⟨some [7], some ([1, 2].take 1), some ([3, 4].take 1),
       some [7], some ([5, 6].take 1)⟩) = true :=
  use_positive_from_truncating [1, 2] [3, 4] [5, 6]
    ⟨some [7], none, none, none, none⟩ [7] rfl (by decide) rfl rfl (by decide)

end EmbeddingStudio
